import Mathlib

/-!
Shallow embedding of `src/inventory_system.py`.

The program keeps a global Python dict `stock_data : Dict[str, int]` and
exposes `add_item`, `remove_item`, `get_qty`, `load_data`, `save_data`,
`print_data` and `check_low_items`.  We model:

* Python values that reach the `item` / `qty` / `threshold` parameters as
  `PyVal` (an integer, a string, or any other value on which `int()`
  raises `TypeError`, e.g. `None`, lists, dicts — the value kinds the
  repository exercises);
* the dict as an insertion-ordered association list `StockData` with
  Python dict semantics (update keeps position, new keys append, `del`
  removes the unique entry);
* `int(x)` as `pyInt`, with Python string-to-int parsing (strip
  whitespace, optional sign, ASCII digits with underscore separators);
* the JSON file read by `load_data` as `FileContent` (absent file,
  malformed JSON, a parsed JSON value, or an OS error while reading),
  and JSON values as `JVal`.
-/

/-- Characters stripped by Python `str.strip()`. -/
def pyIsSpace (c : Char) : Bool :=
  c = ' ' || c = '\t' || c = '\n' || c = '\r' || c = Char.ofNat 11 || c = Char.ofNat 12

/-- Python `s.strip()`: remove leading and trailing whitespace. -/
def pyStrip (s : String) : String :=
  String.mk (((s.data.dropWhile pyIsSpace).reverse.dropWhile pyIsSpace).reverse)

/-- A Python value appearing at the dynamically-typed parameters of the
program: an `int`, a `str`, or any other value on which `int()` raises
`TypeError` (e.g. `None`, a list, a dict). -/
inductive PyVal where
  | int (n : Int)
  | str (s : String)
  | other
deriving DecidableEq

/-- Value of an ASCII digit character. -/
def digitVal (c : Char) : Nat := c.toNat - 48

/-- Digits after the first one: digits, with single underscores allowed
between digits (Python numeric-literal rule used by `int(str)`). -/
def digitsAux : Nat → List Char → Option Nat
  | acc, [] => some acc
  | acc, c :: cs =>
    if c.isDigit then digitsAux (acc * 10 + digitVal c) cs
    else if c = '_' then
      match cs with
      | [] => none
      | d :: cs2 => if d.isDigit then digitsAux (acc * 10 + digitVal d) cs2 else none
    else none

/-- Parse a non-empty digit group (underscore separators allowed). -/
def parseDigits : List Char → Option Nat
  | [] => none
  | c :: cs => if c.isDigit then digitsAux (digitVal c) cs else none

/-- Python `int(s)` on a string: strip whitespace, optional sign, digits. -/
def pyParseInt (s : String) : Option Int :=
  match (pyStrip s).data with
  | '+' :: cs => (parseDigits cs).map (fun n => (n : Int))
  | '-' :: cs => (parseDigits cs).map (fun n => -(n : Int))
  | cs => (parseDigits cs).map (fun n => (n : Int))

/-- Python `int(x)` on a `PyVal`; `none` models a raised
`ValueError`/`TypeError` (the exceptions the program catches). -/
def pyInt : PyVal → Option Int
  | PyVal.int n => some n
  | PyVal.str t => pyParseInt t
  | PyVal.other => none

/-- The in-memory inventory `stock_data`: a Python dict modelled as an
insertion-ordered association list with pairwise-distinct keys. -/
abbrev StockData := List (String × Int)

/-- Python `d.get(k, dflt)`. -/
def dictGet : StockData → String → Int → Int
  | [], _, dflt => dflt
  | p :: rest, k, dflt => if p.1 = k then p.2 else dictGet rest k dflt

/-- Python `k in d`. -/
def dictMem : StockData → String → Bool
  | [], _ => false
  | p :: rest, k => if p.1 = k then true else dictMem rest k

/-- Python `d[k] = v`: update in place keeps the key's position; a new
key is appended at the end (insertion order). -/
def dictSet : StockData → String → Int → StockData
  | [], k, v => [(k, v)]
  | p :: rest, k, v => if p.1 = k then (k, v) :: rest else p :: dictSet rest k v

/-- Python `del d[k]`. -/
def dictDel : StockData → String → StockData
  | [], _ => []
  | p :: rest, k => if p.1 = k then rest else p :: dictDel rest k

/-- JSON values as produced by `json.load` (JSON numbers of the kinds the
repository persists, i.e. integers). -/
inductive JVal where
  | jnull
  | jbool (b : Bool)
  | jint (n : Int)
  | jstr (s : String)
  | jarr (xs : List JVal)
  | jobj (fields : List (String × JVal))

/-- Whether a JSON value is an object (`isinstance(data, dict)`). -/
def JVal.isObj : JVal → Bool
  | JVal.jobj _ => true
  | _ => false

/-- Python `int(v)` on a value decoded from JSON: ints pass through,
strings are parsed, booleans coerce to 0/1, everything else raises. -/
def jvalToInt : JVal → Option Int
  | JVal.jint n => some n
  | JVal.jstr s => pyParseInt s
  | JVal.jbool b => some (if b then 1 else 0)
  | _ => none

/-- What `load_data` finds at the given path: no file
(`FileNotFoundError`), a file that is not valid JSON
(`json.JSONDecodeError`), a file parsing to a JSON value, or a generic
`OSError` while opening/reading. -/
inductive FileContent where
  | absent
  | invalidJson
  | osError
  | json (v : JVal)

/-- `add_item(item, qty)`: validate the name, coerce the quantity, then
`stock_data[item] = stock_data.get(item, 0) + qty`.  Returns the boolean
result together with the new `stock_data`. -/
def add_item (item qty : PyVal) (s : StockData) : Bool × StockData :=
  match item with
  | PyVal.str v =>
    if pyStrip v = "" then (false, s)
    else
      match pyInt qty with
      | none => (false, s)
      | some n => (true, dictSet s v (dictGet s v 0 + n))
  | _ => (false, s)

/-- `remove_item(item, qty)`: validate, require presence, then
`stock_data[item] -= qty`, deleting the entry when the result is ≤ 0. -/
def remove_item (item qty : PyVal) (s : StockData) : Bool × StockData :=
  match item with
  | PyVal.str v =>
    if pyStrip v = "" then (false, s)
    else
      match pyInt qty with
      | none => (false, s)
      | some n =>
        if dictMem s v then
          if dictGet s v 0 - n ≤ 0 then (true, dictDel s v)
          else (true, dictSet s v (dictGet s v 0 - n))
        else (false, s)
  | _ => (false, s)

/-- `get_qty(item)`: 0 on an invalid name, else `stock_data.get(item, 0)`. -/
def get_qty (item : PyVal) (s : StockData) : Int :=
  match item with
  | PyVal.str v => if pyStrip v = "" then 0 else dictGet s v 0
  | _ => 0

/-- One step of `load_data`'s normalisation loop:
`normalized[str(k)] = int(v)`, skipping values that fail coercion
(JSON object keys are already strings, so `str(k)` is the identity). -/
def loadStep (acc : StockData) (p : String × JVal) : StockData :=
  match jvalToInt p.2 with
  | some n => dictSet acc p.1 n
  | none => acc

/-- The `normalized` dict built by `load_data` from the decoded object. -/
def loadNormalize (fields : List (String × JVal)) : StockData :=
  fields.foldl loadStep []

/-- `load_data(file)`: replace `stock_data` by the normalised object on
success; on `FileNotFoundError` or `JSONDecodeError` reset it to empty;
on a non-object root or `OSError` leave it untouched.  Returns the
boolean result together with the new `stock_data`. -/
def load_data (content : FileContent) (s : StockData) : Bool × StockData :=
  match content with
  | FileContent.json (JVal.jobj fields) => (true, loadNormalize fields)
  | FileContent.json _ => (false, s)
  | FileContent.absent => (false, [])
  | FileContent.invalidJson => (false, [])
  | FileContent.osError => (false, s)

/-- The file written by `save_data` on its success path:
`json.dump(stock_data, f)` serialises the dict as a JSON object with the
same keys and integer values. -/
def save_file (s : StockData) : FileContent :=
  FileContent.json (JVal.jobj (s.map (fun p => (p.1, JVal.jint p.2))))

/-- `check_low_items(threshold)`: empty list when the threshold fails
integer coercion, else the loop appending every item with quantity
strictly below the threshold, in dict iteration order. -/
def check_low_items (threshold : PyVal) (s : StockData) : List String :=
  match pyInt threshold with
  | none => []
  | some t => s.foldl (fun acc p => if p.2 < t then acc ++ [p.1] else acc) []

/-- A call to one of the public operations (the state-relevant part:
arguments and, for `load_data`, what the file holds). -/
inductive Op where
  | add (item qty : PyVal)
  | rem (item qty : PyVal)
  | load (content : FileContent)
  | save
  | query (item : PyVal)
  | low (threshold : PyVal)

/-- The effect of one operation on `stock_data` (`save_data`, `get_qty`
and `check_low_items` never mutate it). -/
def applyOp (s : StockData) : Op → StockData
  | Op.add item qty => (add_item item qty s).2
  | Op.rem item qty => (remove_item item qty s).2
  | Op.load c => (load_data c s).2
  | Op.save => s
  | Op.query _ => s
  | Op.low _ => s

/-- Run a sequence of operations from a starting state. -/
def runOps (s : StockData) (ops : List Op) : StockData := ops.foldl applyOp s

/-- Repeated `add_item` of integer quantities for one item name:
conjunction of all returned booleans, and the final state. -/
def addAll (v : String) (s : StockData) : List Int → Bool × StockData
  | [] => (true, s)
  | q :: qs =>
    match add_item (PyVal.str v) (PyVal.int q) s with
    | (b, s2) =>
      match addAll v s2 qs with
      | (b2, s3) => (b && b2, s3)

/-- The representation invariant of a Python dict: keys are pairwise
distinct. -/
def NodupKeys (s : StockData) : Prop := (s.map Prod.fst).Nodup

instance (s : StockData) : Decidable (NodupKeys s) := by
  unfold NodupKeys
  infer_instance

/-- All keys of the mapping are non-empty after trimming. -/
def KeysOk (s : StockData) : Prop := ∀ p ∈ s, pyStrip p.1 ≠ ""

instance (s : StockData) : Decidable (KeysOk s) := by
  unfold KeysOk
  infer_instance

/-! ### Association-list (Python dict) lemmas -/

lemma dictGet_dictSet_self (d : StockData) (k : String) (v x : Int) :
    dictGet (dictSet d k v) k x = v := by
  induction d with
  | nil => simp [dictSet, dictGet]
  | cons p rest ih =>
    by_cases h : p.1 = k
    · simp [dictSet, dictGet, h]
    · simp [dictSet, dictGet, h, ih]

lemma dictMem_false_dictGet (d : StockData) (k : String) (x : Int)
    (h : dictMem d k = false) : dictGet d k x = x := by
  induction d with
  | nil => simp [dictGet]
  | cons p rest ih =>
    by_cases hp : p.1 = k
    · simp [dictMem, hp] at h
    · simp [dictMem, hp] at h
      simp [dictGet, hp, ih h]

lemma dictMem_iff (d : StockData) (k : String) :
    dictMem d k = true ↔ k ∈ d.map Prod.fst := by
  induction d with
  | nil => simp [dictMem]
  | cons p rest ih =>
    by_cases h : p.1 = k
    · simp [dictMem, h]
    · simp [dictMem, h, ih]
      intro hk
      exact absurd hk.symm h

lemma dictMem_dictSet_self (d : StockData) (k : String) (v : Int) :
    dictMem (dictSet d k v) k = true := by
  induction d with
  | nil => simp [dictSet, dictMem]
  | cons p rest ih =>
    by_cases h : p.1 = k
    · simp [dictSet, dictMem, h]
    · simp [dictSet, dictMem, h, ih]

lemma dictMem_dictDel_self (d : StockData) (k : String)
    (hnd : NodupKeys d) : dictMem (dictDel d k) k = false := by
  induction d with
  | nil => simp [dictDel, dictMem]
  | cons p rest ih =>
    have hnd2 : NodupKeys rest := (List.nodup_cons.mp hnd).2
    by_cases h : p.1 = k
    · have hk : k ∉ rest.map Prod.fst := h ▸ (List.nodup_cons.mp hnd).1
      have : ¬ dictMem rest k = true := fun hm => hk ((dictMem_iff rest k).mp hm)
      simp [dictDel, h]
      exact Bool.not_eq_true _ ▸ this
    · simp [dictDel, dictMem, h, ih hnd2]

lemma dictSet_not_mem (d : StockData) (k : String) (v : Int)
    (h : dictMem d k = false) : dictSet d k v = d ++ [(k, v)] := by
  induction d with
  | nil => simp [dictSet]
  | cons p rest ih =>
    by_cases hp : p.1 = k
    · simp [dictMem, hp] at h
    · simp [dictMem, hp] at h
      simp [dictSet, hp, ih h]

lemma dictMem_append (a b : StockData) (k : String) :
    dictMem (a ++ b) k = (dictMem a k || dictMem b k) := by
  induction a with
  | nil => simp [dictMem]
  | cons p rest ih =>
    by_cases hp : p.1 = k
    · simp [dictMem, hp]
    · simp [dictMem, hp, ih]

/-! ### Lemmas about the normalisation loop of load_data -/

lemma foldl_loadStep_append (fields : List (String × JVal)) :
    ∀ acc : StockData, (∀ k ∈ fields.map Prod.fst, dictMem acc k = false) →
    (fields.map Prod.fst).Nodup →
    fields.foldl loadStep acc
      = acc ++ fields.filterMap (fun p => (jvalToInt p.2).map (fun n => (p.1, n))) := by
  induction fields with
  | nil => simp
  | cons p rest ih =>
    intro acc hdisj hnd
    have hnd2 : (rest.map Prod.fst).Nodup := (List.nodup_cons.mp (by simpa using hnd)).2
    have hp1 : p.1 ∉ rest.map Prod.fst := (List.nodup_cons.mp (by simpa using hnd)).1
    cases hjv : jvalToInt p.2 with
    | none =>
      rw [List.foldl_cons]
      have hstep : loadStep acc p = acc := by simp [loadStep, hjv]
      rw [hstep, ih acc (fun k hk => hdisj k (by simp [hk])) hnd2]
      simp [List.filterMap_cons, hjv]
    | some n =>
      rw [List.foldl_cons]
      have haccp : dictMem acc p.1 = false := hdisj p.1 (by simp)
      have hstep : loadStep acc p = acc ++ [(p.1, n)] := by
        simp [loadStep, hjv, dictSet_not_mem acc p.1 n haccp]
      rw [hstep, ih (acc ++ [(p.1, n)]) ?_ hnd2]
      · simp [List.filterMap_cons, hjv]
      · intro k hk
        have hkp : k ≠ p.1 := fun he => hp1 (he ▸ hk)
        rw [dictMem_append]
        simp [hdisj k (by simp [hk]), dictMem, hkp.symm]

lemma loadNormalize_eq_filterMap (fields : List (String × JVal))
    (h : (fields.map Prod.fst).Nodup) :
    loadNormalize fields
      = fields.filterMap (fun p => (jvalToInt p.2).map (fun n => (p.1, n))) := by
  have := foldl_loadStep_append fields [] (fun k _ => rfl) h
  simpa [loadNormalize] using this

/-! ### Lemmas about repeated adds -/

lemma addAll_go (v : String) (hv : pyStrip v ≠ "") (qs : List Int) :
    ∀ s : StockData, (addAll v s qs).1 = true ∧
      dictGet (addAll v s qs).2 v 0 = dictGet s v 0 + qs.sum := by
  induction qs with
  | nil => intro s; simp [addAll]
  | cons q qs ih =>
    intro s
    have hadd : add_item (PyVal.str v) (PyVal.int q) s
        = (true, dictSet s v (dictGet s v 0 + q)) := by
      simp [add_item, pyInt, hv]
    have h2 := ih (dictSet s v (dictGet s v 0 + q))
    refine ⟨?_, ?_⟩
    · simp [addAll, hadd, h2.1]
    · simp only [addAll, hadd]
      rw [h2.2, dictGet_dictSet_self, List.sum_cons]
      ring

/-! ### Preservation of valid keys -/

lemma keysOk_dictSet (d : StockData) (k : String) (v : Int)
    (hd : KeysOk d) (hk : pyStrip k ≠ "") : KeysOk (dictSet d k v) := by
  induction d with
  | nil =>
    intro p hp
    simp [dictSet] at hp
    simp [hp, hk]
  | cons q rest ih =>
    have hq := hd q (by simp)
    have hrest : KeysOk rest := fun p hp => hd p (by simp [hp])
    by_cases h : q.1 = k
    · intro p hp
      simp [dictSet, h] at hp
      rcases hp with hp | hp
      · simp [hp, hk]
      · exact hrest p hp
    · intro p hp
      simp [dictSet, h] at hp
      rcases hp with hp | hp
      · simpa [hp] using hq
      · exact ih hrest p hp

lemma keysOk_dictDel (d : StockData) (k : String)
    (hd : KeysOk d) : KeysOk (dictDel d k) := by
  induction d with
  | nil => intro p hp; simp [dictDel] at hp
  | cons q rest ih =>
    have hq := hd q (by simp)
    have hrest : KeysOk rest := fun p hp => hd p (by simp [hp])
    by_cases h : q.1 = k
    · intro p hp
      simp [dictDel, h] at hp
      exact hrest p hp
    · intro p hp
      simp [dictDel, h] at hp
      rcases hp with hp | hp
      · simpa [hp] using hq
      · exact ih hrest p hp

lemma keysOk_loadNormalize_aux (fields : List (String × JVal))
    (hf : ∀ p ∈ fields, pyStrip p.1 ≠ "") :
    ∀ acc : StockData, KeysOk acc → KeysOk (fields.foldl loadStep acc) := by
  induction fields with
  | nil => intro acc hacc; simpa using hacc
  | cons p rest ih =>
    intro acc hacc
    have hrest : ∀ q ∈ rest, pyStrip q.1 ≠ "" := fun q hq => hf q (by simp [hq])
    rw [List.foldl_cons]
    refine ih hrest (loadStep acc p) ?_
    cases hjv : jvalToInt p.2 with
    | none => simpa [loadStep, hjv] using hacc
    | some n =>
      simp only [loadStep, hjv]
      exact keysOk_dictSet acc p.1 n hacc (hf p (by simp))

/-- Whether an operation can only bring valid (non-empty after trimming)
keys into the mapping: every operation qualifies except a `load_data`
whose file holds a JSON object with an effectively-empty key. -/
def opKeysOk : Op → Bool
  | Op.load (FileContent.json (JVal.jobj fields)) =>
      fields.all (fun p => !(pyStrip p.1 == ""))
  | _ => true

lemma keysOk_applyOp (s : StockData) (op : Op)
    (hs : KeysOk s) (hop : opKeysOk op = true) : KeysOk (applyOp s op) := by
  cases op with
  | add item qty =>
    cases item with
    | str v =>
      by_cases hv : pyStrip v = ""
      · simpa [applyOp, add_item, hv] using hs
      · cases hq : pyInt qty with
        | none => simpa [applyOp, add_item, hv, hq] using hs
        | some n =>
          simp only [applyOp, add_item, hv, hq, if_neg hv]
          exact keysOk_dictSet s v _ hs hv
    | int n => simpa [applyOp, add_item] using hs
    | other => simpa [applyOp, add_item] using hs
  | rem item qty =>
    cases item with
    | str v =>
      by_cases hv : pyStrip v = ""
      · simpa [applyOp, remove_item, hv] using hs
      · cases hq : pyInt qty with
        | none => simpa [applyOp, remove_item, hv, hq] using hs
        | some n =>
          cases hm : dictMem s v with
          | false => simpa [applyOp, remove_item, hv, hq, hm] using hs
          | true =>
            by_cases hle : dictGet s v 0 ≤ n
            · have hres : (remove_item (PyVal.str v) qty s).2 = dictDel s v := by
                simp [remove_item, hv, hq, hm, sub_nonpos, hle]
              simpa [applyOp, hres] using keysOk_dictDel s v hs
            · have hres : (remove_item (PyVal.str v) qty s).2
                  = dictSet s v (dictGet s v 0 - n) := by
                simp [remove_item, hv, hq, hm, sub_nonpos, hle]
              simpa [applyOp, hres] using keysOk_dictSet s v _ hs hv
    | int n => simpa [applyOp, remove_item] using hs
    | other => simpa [applyOp, remove_item] using hs
  | load c =>
    cases c with
    | absent => intro p hp; simp [applyOp, load_data] at hp
    | invalidJson => intro p hp; simp [applyOp, load_data] at hp
    | osError => simpa [applyOp, load_data] using hs
    | json j =>
      cases j with
      | jobj fields =>
        have hf2 : ∀ (a : String) (b : JVal), (a, b) ∈ fields → ¬ pyStrip a = "" := by
          simpa [opKeysOk] using hop
        have hf : ∀ p ∈ fields, pyStrip p.1 ≠ "" := fun p hp => hf2 p.1 p.2 hp
        simp only [applyOp, load_data]
        exact keysOk_loadNormalize_aux fields hf [] (fun p hp => by simp at hp)
      | jnull => simpa [applyOp, load_data] using hs
      | jbool b => simpa [applyOp, load_data] using hs
      | jint n => simpa [applyOp, load_data] using hs
      | jstr t => simpa [applyOp, load_data] using hs
      | jarr xs => simpa [applyOp, load_data] using hs
  | save => simpa [applyOp] using hs
  | query item => simpa [applyOp] using hs
  | low threshold => simpa [applyOp] using hs

lemma keysOk_runOps (ops : List Op) :
    ∀ s : StockData, KeysOk s → (∀ op ∈ ops, opKeysOk op = true) →
    KeysOk (runOps s ops) := by
  induction ops with
  | nil => intro s hs _; simpa [runOps] using hs
  | cons op rest ih =>
    intro s hs hops
    have h1 : KeysOk (applyOp s op) := keysOk_applyOp s op hs (hops op (by simp))
    have h2 := ih (applyOp s op) h1 (fun o ho => hops o (by simp [ho]))
    simpa [runOps] using h2

/-- Valid item name: a string, non-empty after trimming (the check shared
by `add_item`, `remove_item` and `get_qty`). -/
def itemValid : PyVal → Bool
  | PyVal.str v => !(pyStrip v == "")
  | _ => false

lemma check_low_fold (t : Int) (s : StockData) :
    ∀ acc : List String,
      s.foldl (fun acc p => if p.2 < t then acc ++ [p.1] else acc) acc
        = acc ++ (s.filter (fun p => p.2 < t)).map Prod.fst := by
  induction s with
  | nil => simp
  | cons p rest ih =>
    intro acc
    by_cases h : p.2 < t
    · simp [List.foldl_cons, List.filter_cons, h, ih]
    · simp [List.foldl_cons, List.filter_cons, h, ih]

lemma filterMap_jint (s : StockData) :
    (s.map (fun p => (p.1, JVal.jint p.2))).filterMap
        (fun p => (jvalToInt p.2).map (fun n => (p.1, n))) = s := by
  induction s with
  | nil => rfl
  | cons p rest ih =>
    show (p.1, p.2) :: (rest.map (fun p => (p.1, JVal.jint p.2))).filterMap
        (fun p => (jvalToInt p.2).map (fun n => (p.1, n))) = p :: rest
    rw [ih]

/-! ### Claim theorems -/

/-- Claim C1: for every valid (non-empty after trimming) item name and
every sequence of integer quantities added via `add_item` starting from a
state where the item is absent, with no intervening `remove_item` or
`load_data`, every `add_item` call returns true and `get_qty` returns the
cumulative sum of the added quantities (negative ones included). -/
theorem add_item_cumulative_sum (v : String) (s : StockData) (qs : List Int)
    (hv : pyStrip v ≠ "") (habs : dictMem s v = false) :
    (addAll v s qs).1 = true ∧
    get_qty (PyVal.str v) (addAll v s qs).2 = qs.sum := by
  have h := addAll_go v hv qs s
  refine ⟨h.1, ?_⟩
  have h0 : dictGet s v 0 = 0 := dictMem_false_dictGet s v 0 habs
  simp [get_qty, hv, h.2, h0]

theorem add_item_cumulative_sum_witness :
    pyStrip "apple" ≠ "" ∧ dictMem [] "apple" = false ∧
    ((addAll "apple" [] [10, -2, 5]).1 = true ∧
      get_qty (PyVal.str "apple") (addAll "apple" [] [10, -2, 5]).2
        = [10, -2, 5].sum) :=
  ⟨by decide, rfl, add_item_cumulative_sum "apple" [] [10, -2, 5] (by decide) rfl⟩

/-- Claim C2, counterexample: `load_data` can put an effectively-empty
key such as `" "` into the mapping; for that present item `remove_item`
returns false (name validation fires), not true as the claim states. -/
theorem remove_item_present_counterexample :
    dictMem ((load_data (FileContent.json (JVal.jobj [(" ", JVal.jint 5)])) []).2)
        " " = true ∧
    remove_item (PyVal.str " ") (PyVal.int 1)
        ((load_data (FileContent.json (JVal.jobj [(" ", JVal.jint 5)])) []).2)
      = (false, [(" ", 5)]) := by
  decide

/-- Claim C2 (amended): for every item currently present in the mapping
whose name is non-empty after trimming (the mapping being a dict, keys
pairwise distinct) and every integer qty, `remove_item` returns true; if
the old quantity minus qty is ≤ 0 the entry is deleted entirely and
`get_qty` then returns 0, otherwise the entry is kept with the reduced
quantity. -/
theorem remove_item_present (v : String) (q : Int) (s : StockData)
    (hv : pyStrip v ≠ "") (hnd : NodupKeys s) (hmem : dictMem s v = true) :
    (remove_item (PyVal.str v) (PyVal.int q) s).1 = true ∧
    (dictGet s v 0 - q ≤ 0 →
      dictMem (remove_item (PyVal.str v) (PyVal.int q) s).2 v = false ∧
      get_qty (PyVal.str v) (remove_item (PyVal.str v) (PyVal.int q) s).2 = 0) ∧
    (0 < dictGet s v 0 - q →
      dictMem (remove_item (PyVal.str v) (PyVal.int q) s).2 v = true ∧
      get_qty (PyVal.str v) (remove_item (PyVal.str v) (PyVal.int q) s).2
        = dictGet s v 0 - q) := by
  by_cases hle : dictGet s v 0 - q ≤ 0
  · have hres : remove_item (PyVal.str v) (PyVal.int q) s = (true, dictDel s v) := by
      simp [remove_item, hv, pyInt, hmem, sub_nonpos.mp hle]
    rw [hres]
    refine ⟨rfl, fun _ => ?_, fun hgt => absurd hle (by omega)⟩
    have hd := dictMem_dictDel_self s v hnd
    exact ⟨hd, by simp [get_qty, hv, dictMem_false_dictGet _ _ _ hd]⟩
  · have hgt : ¬ dictGet s v 0 ≤ q := fun h => hle (sub_nonpos.mpr h)
    have hres : remove_item (PyVal.str v) (PyVal.int q) s
        = (true, dictSet s v (dictGet s v 0 - q)) := by
      simp [remove_item, hv, pyInt, hmem, sub_nonpos, hgt]
    rw [hres]
    refine ⟨rfl, fun hle2 => absurd hle2 hle, fun _ => ?_⟩
    exact ⟨dictMem_dictSet_self s v _, by simp [get_qty, hv, dictGet_dictSet_self]⟩

theorem remove_item_present_witness :
    (remove_item (PyVal.str "apple") (PyVal.int 7) [("apple", 7)]).1 = true ∧
    dictMem (remove_item (PyVal.str "apple") (PyVal.int 7) [("apple", 7)]).2
        "apple" = false ∧
    get_qty (PyVal.str "apple")
        (remove_item (PyVal.str "apple") (PyVal.int 7) [("apple", 7)]).2 = 0 := by
  have h := remove_item_present "apple" 7 [("apple", 7)] (by decide) (by decide) (by decide)
  have hle : dictGet [("apple", 7)] "apple" 0 - 7 ≤ 0 := by decide
  exact ⟨h.1, (h.2.1 hle).1, (h.2.1 hle).2⟩

/-- Claim C3: saving any well-formed mapping (pairwise-distinct keys, as
a Python dict) and loading the written file back succeeds and reproduces
exactly the saved mapping. -/
theorem save_load_roundtrip (s : StockData) (hnd : NodupKeys s) :
    load_data (save_file s) s = (true, s) := by
  have hkeys : ((s.map (fun p => (p.1, JVal.jint p.2))).map Prod.fst).Nodup := by
    simpa [List.map_map, Function.comp] using hnd
  simp only [save_file, load_data]
  rw [loadNormalize_eq_filterMap _ hkeys, filterMap_jint]

theorem save_load_roundtrip_witness :
    load_data (save_file [("apple", 7), ("pear", 3)]) [("apple", 7), ("pear", 3)]
      = (true, [("apple", 7), ("pear", 3)]) :=
  save_load_roundtrip [("apple", 7), ("pear", 3)] (by decide)

/-- Claim C4: `load_data` returns false on every failure branch; a
missing file or malformed JSON resets the mapping to empty, while a
non-object JSON root or a generic OS error leaves it unchanged. -/
theorem load_data_failure_effects (s : StockData) :
    load_data FileContent.absent s = (false, []) ∧
    load_data FileContent.invalidJson s = (false, []) ∧
    (∀ j : JVal, j.isObj = false → load_data (FileContent.json j) s = (false, s)) ∧
    load_data FileContent.osError s = (false, s) := by
  refine ⟨rfl, rfl, ?_, rfl⟩
  intro j hj
  cases j <;> simp_all [load_data, JVal.isObj]

theorem load_data_failure_effects_witness :
    load_data FileContent.absent [("a", 1)] = (false, []) ∧
    load_data FileContent.invalidJson [("a", 1)] = (false, []) ∧
    load_data (FileContent.json (JVal.jarr [])) [("a", 1)] = (false, [("a", 1)]) ∧
    load_data FileContent.osError [("a", 1)] = (false, [("a", 1)]) := by
  have h := load_data_failure_effects [("a", 1)]
  exact ⟨h.1, h.2.1, h.2.2.1 (JVal.jarr []) rfl, h.2.2.2⟩

/-- Claim C5: on a file parsing to a JSON object, `load_data` returns
true and wholly replaces the mapping by the coerced pairs of that object
(keys kept, values coerced to integers, uncoercible pairs dropped); the
result does not depend on the prior mapping, so dropped keys are not
retained from it. -/
theorem load_data_object_replaces (s : StockData) (fields : List (String × JVal))
    (hnd : (fields.map Prod.fst).Nodup) :
    load_data (FileContent.json (JVal.jobj fields)) s
      = (true, fields.filterMap (fun p => (jvalToInt p.2).map (fun n => (p.1, n)))) := by
  simp only [load_data]
  rw [loadNormalize_eq_filterMap fields hnd]

theorem load_data_object_replaces_witness :
    load_data (FileContent.json (JVal.jobj [("apple", JVal.jint 2), ("bad", JVal.jnull)]))
        [("bad", 9), ("old", 1)]
      = (true, [("apple", 2)]) := by
  have h := load_data_object_replaces [("bad", 9), ("old", 1)]
      [("apple", JVal.jint 2), ("bad", JVal.jnull)] (by decide)
  rw [h]
  rfl

/-- Claim C6: on an item name that is empty (or effectively empty after
trimming), not a string at all, or a quantity that does not coerce to an
integer, both `add_item` and `remove_item` return false with the mapping
exactly unchanged. -/
theorem invalid_input_rejected (item qty : PyVal) (s : StockData)
    (h : itemValid item = false ∨ pyInt qty = none) :
    add_item item qty s = (false, s) ∧ remove_item item qty s = (false, s) := by
  cases item with
  | int n => exact ⟨rfl, rfl⟩
  | other => exact ⟨rfl, rfl⟩
  | str v =>
    by_cases hv : pyStrip v = ""
    · simp [add_item, remove_item, hv]
    · have hq : pyInt qty = none := by
        rcases h with h | h
        · exfalso
          simp [itemValid, hv] at h
        · exact h
      simp [add_item, remove_item, hv, hq]

theorem invalid_input_rejected_witness :
    add_item (PyVal.int 123) (PyVal.str "ten") [("apple", 7)]
      = (false, [("apple", 7)]) ∧
    remove_item (PyVal.int 123) (PyVal.str "ten") [("apple", 7)]
      = (false, [("apple", 7)]) :=
  invalid_input_rejected (PyVal.int 123) (PyVal.str "ten") [("apple", 7)] (Or.inl rfl)

/-- Claim C7: `check_low_items` returns exactly the items with quantity
strictly below the threshold, in the mapping's insertion order (a filter,
not a sort), returns the empty list when the threshold does not coerce to
an integer, and on `{"apple": 3, "banana": 10, "pear": 5}` with threshold
5 returns exactly `["apple"]`. -/
theorem check_low_items_spec (s : StockData) (t : Int) (thr : PyVal) :
    check_low_items (PyVal.int t) s = (s.filter (fun p => p.2 < t)).map Prod.fst ∧
    (pyInt thr = none → check_low_items thr s = []) ∧
    check_low_items (PyVal.int 5) [("apple", 3), ("banana", 10), ("pear", 5)]
      = ["apple"] := by
  refine ⟨?_, ?_, by decide⟩
  · simp only [check_low_items, pyInt]
    rw [check_low_fold]
    simp
  · intro h
    simp [check_low_items, h]

theorem check_low_items_spec_witness :
    check_low_items (PyVal.str "ten") [("apple", 3), ("banana", 10), ("pear", 5)]
      = [] ∧
    check_low_items (PyVal.int 5) [("apple", 3), ("banana", 10), ("pear", 5)]
      = ["apple"] := by
  have h := check_low_items_spec [("apple", 3), ("banana", 10), ("pear", 5)] 5
      (PyVal.str "ten")
  exact ⟨h.2.1 (by decide), h.2.2⟩

/-- Claim C8: with a valid item name, `add_item` succeeds exactly when
the quantity is an integer or a string parsing as one, and whenever it
returns false the mapping is unchanged. -/
theorem add_item_coercion_boundary (v : String) (qty : PyVal) (s : StockData)
    (hv : pyStrip v ≠ "") :
    ((add_item (PyVal.str v) qty s).1 = true ↔
      (∃ n : Int, qty = PyVal.int n) ∨
      (∃ t : String, qty = PyVal.str t ∧ (pyParseInt t).isSome = true)) ∧
    ((add_item (PyVal.str v) qty s).1 = false →
      (add_item (PyVal.str v) qty s).2 = s) := by
  cases qty with
  | int n =>
    have h1 : add_item (PyVal.str v) (PyVal.int n) s
        = (true, dictSet s v (dictGet s v 0 + n)) := by simp [add_item, hv, pyInt]
    rw [h1]
    exact ⟨⟨fun _ => Or.inl ⟨n, rfl⟩, fun _ => rfl⟩, fun hcon => by simp at hcon⟩
  | other =>
    have h1 : add_item (PyVal.str v) PyVal.other s = (false, s) := by
      simp [add_item, hv, pyInt]
    rw [h1]
    refine ⟨⟨fun hcon => by simp at hcon, fun hcon => ?_⟩, fun _ => rfl⟩
    rcases hcon with ⟨n, hn⟩ | ⟨t, ht, _⟩
    · exact PyVal.noConfusion hn
    · exact PyVal.noConfusion ht
  | str t =>
    cases hp : pyParseInt t with
    | some m =>
      have h1 : add_item (PyVal.str v) (PyVal.str t) s
          = (true, dictSet s v (dictGet s v 0 + m)) := by
        simp [add_item, hv, pyInt, hp]
      rw [h1]
      exact ⟨⟨fun _ => Or.inr ⟨t, rfl, by simp [hp]⟩, fun _ => rfl⟩,
        fun hcon => by simp at hcon⟩
    | none =>
      have h1 : add_item (PyVal.str v) (PyVal.str t) s = (false, s) := by
        simp [add_item, hv, pyInt, hp]
      rw [h1]
      refine ⟨⟨fun hcon => by simp at hcon, fun hcon => ?_⟩, fun _ => rfl⟩
      exfalso
      rcases hcon with ⟨n, hn⟩ | ⟨t2, ht2, hsome⟩
      · exact PyVal.noConfusion hn
      · injection ht2 with h2
        subst h2
        simp [hp] at hsome

theorem add_item_coercion_boundary_witness :
    (add_item (PyVal.str "pear") (PyVal.str "3") []).1 = true ∧
    (add_item (PyVal.str "pear") (PyVal.str "ten") []).2 = [] := by
  have h1 := add_item_coercion_boundary "pear" (PyVal.str "3") [] (by decide)
  have h2 := add_item_coercion_boundary "pear" (PyVal.str "ten") [] (by decide)
  exact ⟨h1.1.mpr (Or.inr ⟨"3", rfl, by decide⟩), h2.2 (by decide)⟩

/-- Claim C9, counterexample: one `load_data` of the JSON object
`{" ": 1}`, starting from the empty mapping, leaves a key that is empty
after trimming — `load_data` does not validate the keys it loads, so the
claimed invariant fails. -/
theorem key_invariant_counterexample :
    ¬ KeysOk (runOps [] [Op.load (FileContent.json (JVal.jobj [(" ", JVal.jint 1)]))]) := by
  decide

/-- Claim C9 (amended): after every sequence of operations starting from
the empty mapping in which every `load_data` reads a JSON object all of
whose keys are non-empty after trimming (all other operations are
unrestricted), every key present in the mapping is non-empty after
trimming. -/
theorem key_invariant_preserved (ops : List Op)
    (h : ∀ op ∈ ops, opKeysOk op = true) :
    KeysOk (runOps [] ops) :=
  keysOk_runOps ops [] (fun p hp => absurd hp (List.not_mem_nil p)) h

theorem key_invariant_preserved_witness :
    (∀ op ∈ [Op.add (PyVal.str "apple") (PyVal.int 10),
              Op.rem (PyVal.str "apple") (PyVal.int 3), Op.save,
              Op.load (FileContent.json (JVal.jobj [("pear", JVal.jint 7)]))],
        opKeysOk op = true) ∧
    KeysOk (runOps [] [Op.add (PyVal.str "apple") (PyVal.int 10),
              Op.rem (PyVal.str "apple") (PyVal.int 3), Op.save,
              Op.load (FileContent.json (JVal.jobj [("pear", JVal.jint 7)]))]) :=
  ⟨by decide, key_invariant_preserved _ (by decide)⟩

/-- Claim C10, counterexample: as for claim C2, `load_data` can put the
effectively-empty key `" "` into the mapping; that item is present with
quantity 5, the quantity `-1` is negative with resulting quantity
`5 - (-1) = 6 > 0`, yet `remove_item` returns false (name validation
fires) instead of accepting the negative removal. -/
theorem remove_negative_increases_counterexample :
    dictMem ((load_data (FileContent.json (JVal.jobj [(" ", JVal.jint 5)])) []).2)
        " " = true ∧
    (-1 : Int) < 0 ∧
    0 < dictGet ((load_data (FileContent.json (JVal.jobj [(" ", JVal.jint 5)])) []).2)
        " " 0 - (-1) ∧
    remove_item (PyVal.str " ") (PyVal.int (-1))
        ((load_data (FileContent.json (JVal.jobj [(" ", JVal.jint 5)])) []).2)
      = (false, [(" ", 5)]) := by
  decide

/-- Claim C10 (amended): removing a negative quantity from a present item
whose name is non-empty after trimming (with the resulting quantity
positive) is accepted and increases the stock: the call returns true and
the new quantity, old minus qty, is strictly greater than the old one. -/
theorem remove_negative_increases (v : String) (q : Int) (s : StockData)
    (hv : pyStrip v ≠ "") (hmem : dictMem s v = true) (hq : q < 0)
    (hpos : 0 < dictGet s v 0 - q) :
    (remove_item (PyVal.str v) (PyVal.int q) s).1 = true ∧
    get_qty (PyVal.str v) (remove_item (PyVal.str v) (PyVal.int q) s).2
      = dictGet s v 0 - q ∧
    dictGet s v 0 < dictGet s v 0 - q := by
  have hnle : ¬ dictGet s v 0 ≤ q := by omega
  have hres : remove_item (PyVal.str v) (PyVal.int q) s
      = (true, dictSet s v (dictGet s v 0 - q)) := by
    simp [remove_item, hv, pyInt, hmem, sub_nonpos, hnle]
  rw [hres]
  refine ⟨rfl, ?_, by omega⟩
  simp [get_qty, hv, dictGet_dictSet_self]

theorem remove_negative_increases_witness :
    (remove_item (PyVal.str "apple") (PyVal.int (-3)) [("apple", 5)]).1 = true ∧
    get_qty (PyVal.str "apple")
        (remove_item (PyVal.str "apple") (PyVal.int (-3)) [("apple", 5)]).2
      = dictGet [("apple", 5)] "apple" 0 - (-3) ∧
    dictGet [("apple", 5)] "apple" 0 < dictGet [("apple", 5)] "apple" 0 - (-3) :=
  remove_negative_increases "apple" (-3) [("apple", 5)] (by decide) (by decide)
    (by decide) (by decide)
